import Mathlib

/-!
Verification of the svelte-markdown preprocessor (`preprocessor.js`).

JavaScript strings are modelled as `List Char`; every function below is a
direct translation of the corresponding function in the source file.
-/

namespace SvelteMd

/-- The whitespace characters removed by JavaScript `String.prototype.trim`
(ASCII subset: space, tab, newline, carriage return, vertical tab, form feed). -/
def isJsWs (c : Char) : Bool :=
  c == ' ' || c == '\t' || c == '\n' || c == '\r' ||
  c == Char.ofNat 11 || c == Char.ofNat 12

/-- Model of JavaScript `s.trim()`: strip leading and trailing whitespace. -/
def jsTrim (s : List Char) : List Char :=
  ((s.dropWhile isJsWs).reverse.dropWhile isJsWs).reverse

/-- Model of JavaScript `s.startsWith(p)` (`p` first argument here). -/
def startsWithL : List Char → List Char → Bool
  | [], _ => true
  | _ :: _, [] => false
  | a :: as, b :: bs => a == b && startsWithL as bs

/-- Model of JavaScript `s.endsWith(p)` (`p` first argument here). -/
def endsWithL (p s : List Char) : Bool :=
  startsWithL p.reverse s.reverse

/-- Model of JavaScript `s.includes(n)` (`n` first argument here):
does `n` occur as a contiguous substring of `s`? -/
def isSubl (n : List Char) : List Char → Bool
  | [] => startsWithL n []
  | s@(_ :: rest) => startsWithL n s || isSubl n rest

/-- Model of JavaScript `s.indexOf(n)` restricted to found/not-found:
index of the first occurrence of `n` in `s`. -/
def findSubIdx (n : List Char) : List Char → Option Nat
  | [] => if startsWithL n [] then some 0 else none
  | s@(_ :: rest) =>
    if startsWithL n s then some 0
    else (findSubIdx n rest).map (· + 1)

/-- Model of JavaScript `s.split(sep)` for a single-character separator. -/
def splitOn (sep : Char) : List Char → List (List Char)
  | [] => [[]]
  | c :: rest =>
    let r := splitOn sep rest
    if c = sep then [] :: r
    else
      match r with
      | h :: t => (c :: h) :: t
      | [] => [[c]]

/-- Model of JavaScript `parts.join(sep)`. -/
def joinWithL (sep : List Char) : List (List Char) → List Char
  | [] => []
  | [x] => x
  | x :: xs => x ++ sep ++ joinWithL sep xs

/-- A key/value pair of the front-matter mapping. -/
abbrev KV := List Char × List Char

/-- Model of JavaScript object assignment `obj[k] = v` on a flat
string-to-string object kept in insertion order: an existing key keeps its
position and gets the new value; a new key is appended. -/
def setKV : List KV → KV → List KV
  | [], kv => [kv]
  | (k, v) :: rest, (k', v') =>
    if k = k' then (k, v') :: rest else (k, v) :: setKV rest (k', v')

/-- Model of JavaScript property read `obj[k]` on the flat object. -/
def lookupKV (fm : List KV) (key : List Char) : Option (List Char) :=
  match fm with
  | [] => none
  | (k, v) :: rest => if k = key then some v else lookupKV rest key

/-- The `^["']` alternative of `value.replace(/^["']|["']$/g, "")`
(line 42 of the source): remove one leading quote character if present. -/
def dropLeadQuoteJs (s : List Char) : List Char :=
  match s with
  | c :: rest => if c = '"' || c = Char.ofNat 39 then rest else s
  | [] => []

/-- The `["']$` alternative of the same replace: remove one trailing quote
character if present. -/
def dropTrailQuoteJs (s : List Char) : List Char :=
  match s.reverse with
  | c :: rest => if c = '"' || c = Char.ofNat 39 then rest.reverse else s
  | [] => s

/-- Model of `value.replace(/^["']|["']$/g, "")` (line 42 of the source).
The global regex removes a leading quote and a trailing quote as two
independent, non-overlapping matches; this equals removing the leading
quote first and then a trailing quote of the remainder (when the input is
a single quote character both formulations yield the empty string). -/
def stripQuotesJs (s : List Char) : List Char :=
  dropTrailQuoteJs (dropLeadQuoteJs s)

/-- The body of the `for (const line of lines)` loop in `parseFrontMatter`
(lines 35-44 of the source): trims the line, skips blank and `#`-comment
lines, splits on `:`, requires a truthy key and at least one value part,
and returns the trimmed key with the trimmed, quote-stripped value. -/
def parseHeaderLine (line : List Char) : Option KV :=
  let trimmed := jsTrim line
  if trimmed = [] then none
  else if startsWithL (['#']) trimmed then none
  else
    match splitOn ':' trimmed with
    | [] => none
    | key :: valueParts =>
      if key ≠ [] ∧ valueParts.length > 0 then
        some (jsTrim key, stripQuotesJs (jsTrim (joinWithL ([':']) valueParts)))
      else none

/-- The front-matter regex `/^---\n([\s\S]*?)\n---\n([\s\S]*)$/` (line 21):
the text must begin with the four characters `---\n`; the first (lazy)
capture group is the shortest prefix of the remainder that is followed by
`\n---\n`; the second capture group is everything after that delimiter. -/
def frontMatterMatch (content : List Char) : Option (List Char × List Char) :=
  if startsWithL (("---\n").toList) content then
    let r := content.drop 4
    match findSubIdx (("\n---\n").toList) r with
    | some i => some (r.take i, r.drop (i + 5))
    | none => none
  else none

/-- The line loop of `parseFrontMatter` (lines 34-45), folding
`parseHeaderLine` over the header lines into the front-matter object. -/
def parseLinesPlain : List (List Char) → List KV → List KV
  | [], fm => fm
  | line :: rest, fm =>
    parseLinesPlain rest
      (match parseHeaderLine line with
       | some kv => setKV fm kv
       | none => fm)

/-- `parseFrontMatter` (lines 20-51 of the source): on a regex match the
header lines are parsed into a mapping and the second capture group is the
returned body; otherwise the empty mapping and the unchanged input. -/
def parseFrontMatter (content : List Char) : List KV × List Char :=
  match frontMatterMatch content with
  | none => ([], content)
  | some (yaml, md) =>
    (parseLinesPlain (splitOn '\n' yaml) [], md)

/-- The line loop of `parseFrontMatter` under an explicit fault oracle
modelling the `try`/`catch` at lines 31-48: `err k = true` means the
iteration for line `k` raises an exception.  The exception aborts the loop;
the `catch` block only logs, so the entries accumulated in the mutable
`frontMatter` object before the exception survive. -/
def parseLinesExc (err : Nat → Bool) : List (List Char) → Nat → List KV → List KV
  | [], _, fm => fm
  | line :: rest, k, fm =>
    if err k then fm
    else
      parseLinesExc err rest (k + 1)
        (match parseHeaderLine line with
         | some kv => setKV fm kv
         | none => fm)

/-- `parseFrontMatter` with the fault oracle threaded through its line loop.
After the `catch` block runs, the function still returns the (possibly
partially filled) `frontMatter` object and the second regex capture group
`markdownContent` as the body (line 50 of the source). -/
def parseFrontMatterExc (err : Nat → Bool) (content : List Char) :
    List KV × List Char :=
  match frontMatterMatch content with
  | none => ([], content)
  | some (yaml, md) =>
    (parseLinesExc err (splitOn '\n' yaml) 0 [], md)

/-- Decimal digit character: `digitCh d` is the character for digit `d`. -/
def digitCh (d : Nat) : Char := Char.ofNat (48 + d)

/-- Digits of a positive number, most significant first.  The first argument
is fuel making the recursion structural; any fuel `≥ n` gives the digits of
`n`. -/
def natToStrAux : Nat → Nat → List Char
  | 0, _ => []
  | _ + 1, 0 => []
  | fuel + 1, n + 1 =>
    natToStrAux fuel ((n + 1) / 10) ++ [digitCh ((n + 1) % 10)]

/-- Model of JavaScript number-to-string interpolation for a natural
number, as in the template literal at line 69 of the source. -/
def natToStr (n : Nat) : List Char :=
  if n = 0 then [('0')] else natToStrAux n n

/-- The literal placeholder prefix `__SVELTE_COMPONENT_` (line 69),
written out as characters. -/
def placeholderPre : List Char :=
  ['_', '_', 'S', 'V', 'E', 'L', 'T', 'E', '_', 'C', 'O', 'M', 'P', 'O',
   'N', 'E', 'N', 'T', '_']

/-- The placeholder spliced in for the match with discovery index `n`:
`__SVELTE_COMPONENT_` + `n` + `__` (line 69 of the source). -/
def placeholderFor (n : Nat) : List Char :=
  placeholderPre ++ natToStr n ++ ['_', '_']

/-- `[A-Z]` of the component regex. -/
def isUpperAscii (c : Char) : Bool := 'A' ≤ c && c ≤ 'Z'

/-- `[a-zA-Z0-9]` of the component regex. -/
def isTagChar (c : Char) : Bool :=
  ('a' ≤ c && c ≤ 'z') || ('A' ≤ c && c ≤ 'Z') || ('0' ≤ c && c ≤ '9')

/-- One match of the component regex
`/<([A-Z][a-zA-Z0-9]*)([\s\S]*?)(?:\/>|>([\s\S]*?)<\/\1>)/` :
total matched length, tag name (group 1), attributes text (group 2) and,
for the paired alternative, the children text (group 3). -/
structure TagMatch where
  len : Nat
  tagName : List Char
  attrs : List Char
  children : Option (List Char)
  deriving DecidableEq, Repr

/-- Matching of `([\s\S]*?)(?:\/>|>([\s\S]*?)<\/\1>)` against `rest`, the
text following the already-fixed tag name.  Backtracking order of the
engine: attribute lengths are tried shortest first (lazy group 2); for each,
the `/>` branch of the alternation is tried before the `>...</name>` branch;
children lengths are tried shortest first (lazy group 3).  Returns the
attributes, the optional children and the number of characters of `rest`
consumed. -/
def matchTail (tagName rest : List Char) : Option (List Char × Option (List Char) × Nat) :=
  (List.range (rest.length + 1)).findSome? fun al =>
    let attrs := rest.take al
    let r2 := rest.drop al
    if startsWithL (['/', '>']) r2 then
      some (attrs, none, al + 2)
    else
      match r2 with
      | c :: r3 =>
        if c = '>' then
          match (List.range (r3.length + 1)).findSome? (fun cl =>
            if startsWithL (['<', '/'] ++ tagName ++ ['>']) (r3.drop cl)
            then some cl else none) with
          | some cl =>
            some (attrs, some (r3.take cl), al + 1 + cl + (tagName.length + 3))
          | none => none
        else none
      | [] => none

/-- Matching of the full component regex anchored at the head of `s`.
Group 1 `[A-Z][a-zA-Z0-9]*` is greedy: the longest run of tag characters is
tried first and shortened on failure of the rest of the pattern. -/
def matchTag (s : List Char) : Option TagMatch :=
  match s with
  | c0 :: c :: r2 =>
    if c0 = '<' && isUpperAscii c then
      let run := r2.takeWhile isTagChar
      ((List.range (run.length + 1)).map (fun x => run.length - x)).findSome? fun k =>
        let tagName := c :: run.take k
        match matchTail tagName (r2.drop k) with
        | some (attrs, children, consumed) =>
          some { len := 2 + k + consumed, tagName := tagName,
                 attrs := attrs, children := children }
        | none => none
    else none
  | _ => none

/-- Leftmost match of the component regex at a position `≥ pos`, where the
first argument is the corresponding suffix of the subject text; models
`componentRegex.exec(content)` resuming from `lastIndex`. -/
def scanAux : List Char → Nat → Option (Nat × TagMatch)
  | [], _ => none
  | s@(_ :: rest), pos =>
    match matchTag s with
    | some m => some (pos, m)
    | none => scanAux rest (pos + 1)

/-- One extracted component occurrence (the object pushed at lines 71-77 of
the source).  `children` stores `children || ""`, so a self-closing match
and a paired match with empty children both store the empty string. -/
structure SComponent where
  tagName : List Char
  attributes : List Char
  children : List Char
  fullMatch : List Char
  placeholder : List Char
  deriving DecidableEq, Repr

/-- The `while ((match = componentRegex.exec(content)) !== null)` loop of
`extractSvelteComponents` (lines 67-87).  The scan always runs over the
original `content`; the placeholder splice happens in `modified` at
`match.index - offset`, with `offset` accumulating the length deltas of the
previous replacements (it is negative when placeholders are longer than the
spans they replace, hence `Int`; JavaScript `substring` clamps negative
positions to `0`, hence `Int.toNat`).  The fuel argument only bounds the
iteration count; every match consumes at least four characters of
`content`, so `content.length + 1` iterations are never reached. -/
def extractGo : Nat → List Char → List Char → Nat → Int → List SComponent →
    List SComponent × List Char
  | 0, _, modified, _, _, comps => (comps, modified)
  | fuel + 1, content, modified, lastIndex, offset, comps =>
    match scanAux (content.drop lastIndex) lastIndex with
    | none => (comps, modified)
    | some (pos, m) =>
      let fullMatch := (content.drop pos).take m.len
      let placeholder := placeholderFor comps.length
      let comp : SComponent :=
        { tagName := m.tagName, attributes := jsTrim m.attrs,
          children := (m.children).getD [],
          fullMatch := fullMatch, placeholder := placeholder }
      let si : Nat := ((pos : Int) - offset).toNat
      let ei : Nat := ((pos : Int) - offset + (m.len : Int)).toNat
      let modified' := modified.take si ++ placeholder ++ modified.drop ei
      extractGo fuel content modified' (pos + m.len)
        (offset + (m.len : Int) - (placeholder.length : Int))
        (comps ++ [comp])

/-- `extractSvelteComponents` (lines 58-90): returns the working text with
every match replaced by its placeholder, and the ordered occurrence list. -/
def extractSvelteComponents (content : List Char) : List Char × List SComponent :=
  let r := extractGo (content.length + 1) content content 0 0 []
  (r.2, r.1)

/-- The reconstruction expression of `restoreSvelteComponents`
(lines 103-105): the paired form when the stored children text is truthy
(non-empty), else the self-closing form; a space is put before the
attributes only when they are truthy (non-empty). -/
def reconstructComponent (c : SComponent) : List Char :=
  if c.children ≠ [] then
    ['<'] ++ c.tagName ++ (if c.attributes ≠ [] then ' ' :: c.attributes else []) ++
      ['>'] ++ c.children ++ ['<', '/'] ++ c.tagName ++ ['>']
  else
    ['<'] ++ c.tagName ++ (if c.attributes ≠ [] then ' ' :: c.attributes else []) ++
      [' ', '/', '>']

/-- Model of JavaScript `s.replace(needle, repl)` with a string pattern:
only the first occurrence is replaced. -/
def replaceFirst (s needle repl : List Char) : List Char :=
  match findSubIdx needle s with
  | some i => s.take i ++ repl ++ s.drop (i + needle.length)
  | none => s

/-- `restoreSvelteComponents` (lines 98-111): walk the occurrences in
order, replacing the first occurrence of each placeholder with the
reconstructed component markup. -/
def restoreSvelteComponents (html : List Char) (comps : List SComponent) : List Char :=
  comps.foldl (fun h c => replaceFirst h c.placeholder (reconstructComponent c)) html

/-- `renderer.link` (lines 129-138): a link is external when its target
starts with `http` and does not contain `options.hostname || "localhost"`;
external links get the `target`/`rel` attributes; a `title` attribute is
emitted when `title` is truthy.  `hostnameOpt` models `options.hostname`
(`none` = property absent). -/
def rendererLink (hostnameOpt : Option (List Char)) (href : List Char)
    (title : Option (List Char)) (text : List Char) : List Char :=
  let host :=
    match hostnameOpt with
    | some h => if h = [] then ("localhost").toList else h
    | none => ("localhost").toList
  let isExternal := startsWithL (("http").toList) href && !(isSubl host href)
  let target :=
    if isExternal then (" target=\"_blank\" rel=\"noopener noreferrer\"").toList
    else []
  let titleAttr :=
    match title with
    | some t => if t = [] then [] else (" title=\"").toList ++ t ++ ['"']
    | none => []
  ("<a href=\"").toList ++ href ++ ['"'] ++ titleAttr ++ target ++ ['>'] ++
    text ++ ("</a>").toList

/-- The hostname handed to `configureMarked` at line 187 of the source:
`frontMatter.hostname || "localhost"` — read from the parsed front matter of
the document, with `"localhost"` as the fallback for an absent or empty
value. -/
def markupHostname (frontMatter : List KV) : List Char :=
  match lookupKV frontMatter (("hostname").toList) with
  | some v => if v = [] then ("localhost").toList else v
  | none => ("localhost").toList

/-- Lowercase hexadecimal digit character (`0`-`9`, `a`-`f`), as emitted by
`JSON.stringify` in `\u00XX` escapes. -/
def hexDigitCh (d : Nat) : Char :=
  if d < 10 then digitCh d else Char.ofNat (87 + d)

/-- Modelled platform builtin: the JSON string escaping performed by
`JSON.stringify` on one character. -/
def jsonEscapeChar (c : Char) : List Char :=
  if c = '"' then ['\\', '"']
  else if c = '\\' then ['\\', '\\']
  else if c = '\n' then ['\\', 'n']
  else if c = '\r' then ['\\', 'r']
  else if c = '\t' then ['\\', 't']
  else if c = Char.ofNat 8 then ['\\', 'b']
  else if c = Char.ofNat 12 then ['\\', 'f']
  else if c.toNat < 32 then
    ['\\', 'u', '0', '0', hexDigitCh (c.toNat / 16), hexDigitCh (c.toNat % 16)]
  else [c]

/-- Modelled platform builtin: a JSON string literal. -/
def jsonString (s : List Char) : List Char :=
  ['"'] ++ s.flatMap jsonEscapeChar ++ ['"']

/-- Modelled platform builtin: `JSON.stringify(frontMatter, null, 2)` for
the flat string-to-string front-matter object (line 198 of the source). -/
def jsonStringifyFM : List KV → List Char
  | [] => ['{', '}']
  | kvs =>
    ('{' :: '\n' :: joinWithL ([',', '\n'])
      (kvs.map fun kv => [' ', ' '] ++ jsonString kv.1 ++ [':', ' '] ++ jsonString kv.2)) ++
      ['\n', '}']

/-- The assembled Svelte component text (lines 174-215 of the source): the
generated `<script>` preamble holding the front-matter object and its keys
as bindings, followed by the rendered HTML with the components restored.
`render hostname text` stands for `marked.parse(text)` under the marked
configuration installed by `configureMarked({hostname})`. -/
def assembledCode (render : List Char → List Char → List Char)
    (content : List Char) : List Char :=
  let fmb := parseFrontMatter content
  let frontMatter := fmb.1
  let ec := extractSvelteComponents fmb.2
  let html0 := render (markupHostname frontMatter) ec.1
  let html := restoreSvelteComponents html0 ec.2
  let scriptContent :=
    ("\n      let \x7b frontMatter = ").toList ++ jsonStringifyFM frontMatter ++
    (", ...props \x7d = $props();\n      \n      // Destructure front matter properties as individual props\n      let \x7b ").toList ++
    joinWithL ([',', ' ']) (frontMatter.map (·.1)) ++
    (" \x7d = \x7b ...frontMatter, ...props \x7d;\n    ").toList
  ("<script>\n").toList ++ scriptContent ++ ("\n</script>\n\n").toList ++ html

/-- The source map returned by the modelled platform builtin
`s.generateMap({ hires: true })` (line 222). -/
structure SourceMapObj where
  hires : Bool
  deriving DecidableEq, Repr

/-- The preprocessor result `{ code, map }`. -/
structure Output where
  code : List Char
  map : SourceMapObj
  deriving DecidableEq, Repr

/-- The hybrid-format extension string `".svelte.md"` (line 170). -/
def svelteMdExt : List Char := (".svelte.md").toList

/-- The three outcomes of one `markup` invocation: `declined` is the
`return;` of the filename guard (the host sees `undefined`); `thrown` is an
exception propagating out of the `try` block, logged and re-raised by the
`catch` at lines 224-227; `produced` is the `{ code, map }` record. -/
inductive MarkupResult where
  | declined
  | thrown
  | produced (out : Output)
  deriving DecidableEq, Repr

/-- `svelteMarkdownPreprocessor.markup` (lines 168-228): decline (return
`undefined`) when the filename is falsy or does not end in `.svelte.md`;
otherwise run the pipeline and return the assembled code with a
high-resolution source map.  The final `s.overwrite(0, content.length, ...)`
is the modelled platform library `MagicString`: it rejects a zero-length
overwrite, so for empty content the overwrite throws and the `catch`
re-raises; for non-empty content `s.toString()` is the replacement text. -/
def markup (render : List Char → List Char → List Char)
    (filename : Option (List Char)) (content : List Char) : MarkupResult :=
  match filename with
  | none => .declined
  | some f =>
    if f = [] then .declined
    else if !(endsWithL svelteMdExt f) then .declined
    else if content = [] then .thrown
    else .produced { code := assembledCode render content, map := { hires := true } }

/-- The options object accepted by `createSvelteMarkdownPreprocessor`
(lines 233-239): `markedOptions` (opaque pass-through, modelled as a unit),
`hostname` and `includeDefaultStyles`. -/
structure FactoryOptions where
  markedOptions : Option Unit
  hostname : Option (List Char)
  includeDefaultStyles : Option Bool

/-- `createSvelteMarkdownPreprocessor(options).markup` (lines 239-251): the
returned `markup` repeats the extension guard and then delegates to
`svelteMarkdownPreprocessor.markup({ content, filename })`; the `options`
argument is never read. -/
def factoryMarkup (_options : FactoryOptions)
    (render : List Char → List Char → List Char)
    (filename : Option (List Char)) (content : List Char) : MarkupResult :=
  match filename with
  | none => .declined
  | some f =>
    if f = [] then .declined
    else if !(endsWithL svelteMdExt f) then .declined
    else markup render filename content

/-- The link rule exactly as the specification's words state it, for a
given (non-empty) configured hostname: external iff the target starts with
`http` and does not contain the hostname; external links carry
`target="_blank" rel="noopener noreferrer"`, internal links carry neither;
a title attribute is emitted exactly when a (non-empty) title is present.
Stated separately from `rendererLink` so the two can be compared. -/
def linkRuleSpec (hostname href : List Char) (title : Option (List Char))
    (text : List Char) : List Char :=
  let isExternal := startsWithL (("http").toList) href && !(isSubl hostname href)
  ("<a href=\"").toList ++ href ++ ['"'] ++
    (match title with
     | some t => if t = [] then [] else (" title=\"").toList ++ t ++ ['"']
     | none => []) ++
    (if isExternal then (" target=\"_blank\" rel=\"noopener noreferrer\"").toList
     else []) ++
    ['>'] ++ text ++ ("</a>").toList

/-- Quote stripping as the amended claim describes it: at most one leading
quote character (single or double) is removed if present, and then at most
one trailing quote character is removed if present, the two removals being
independent (so one-sided and mismatched quotes are stripped as well). -/
def specStrip (raw : List Char) : List Char :=
  let v1 :=
    if raw.head? = some '"' ∨ raw.head? = some (Char.ofNat 39) then raw.tail
    else raw
  if v1.getLast? = some '"' ∨ v1.getLast? = some (Char.ofNat 39) then v1.dropLast
  else v1

/-- The stored value of a header line as the amended claim describes it:
the trimmed text after the first colon of the trimmed line, with the
independent quote stripping of `specStrip` applied. -/
def specValueC6 (t : List Char) : List Char :=
  specStrip (jsTrim ((t.dropWhile (fun c => c != ':')).tail))

/-- The self-closing reconstruction form `<Name attrs />` described by the
claim (attributes preceded by a space only when non-empty). -/
def selfClosingForm (c : SComponent) : List Char :=
  ('<' :: c.tagName) ++ (if c.attributes ≠ [] then ' ' :: c.attributes else []) ++
    (" />").toList

/-! ## Theorems -/

/-- If the front-matter regex does not match, `parseFrontMatter` returns
the empty mapping and the unchanged input. -/
theorem parseFrontMatter_no_match (content : List Char)
    (h : frontMatterMatch content = none) :
    parseFrontMatter content = ([], content) := by
  unfold parseFrontMatter
  rw [h]

/-- Claim C7: for every input text in which the header delimiter pattern is
absent, `parseFrontMatter` returns an empty metadata mapping and the body
equal to the input text, unchanged and without error. -/
theorem claim_C7 (content : List Char)
    (h : frontMatterMatch content = none) :
    parseFrontMatter content = ([], content) :=
  parseFrontMatter_no_match content h

/-- Witness for claim C7 at a concrete headerless input. -/
theorem claim_C7_witness :
    parseFrontMatter (("hello world").toList) = ([], ("hello world").toList) :=
  claim_C7 _ (by decide)

/-- Claim C3, counterexample: on an input whose extracted body itself
begins with a delimiter block, a second parse of the body does not return
empty metadata with the body unchanged. -/
theorem claim_C3_counterexample :
    (frontMatterMatch (("---\na: 1\n---\n---\nb: 2\n---\nrest").toList)).isSome = true ∧
    (parseFrontMatter (("---\na: 1\n---\n---\nb: 2\n---\nrest").toList)).2 =
      ("---\nb: 2\n---\nrest").toList ∧
    parseFrontMatter (("---\nb: 2\n---\nrest").toList) ≠
      ([], ("---\nb: 2\n---\nrest").toList) := by
  refine ⟨by decide, by decide, by decide⟩

/-- Claim C3 as amended: for every input with a valid header whose
extracted body does not itself match the header delimiter pattern, a second
parse of the body yields empty metadata and the identical body. -/
theorem claim_C3_amended (content yaml body : List Char)
    (hm : frontMatterMatch content = some (yaml, body))
    (hb : frontMatterMatch body = none) :
    parseFrontMatter ((parseFrontMatter content).2) =
      ([], (parseFrontMatter content).2) := by
  have h2 : (parseFrontMatter content).2 = body := by
    unfold parseFrontMatter
    rw [hm]
  rw [h2]
  exact parseFrontMatter_no_match body hb

/-- Witness for the amended claim C3 at a concrete headed input. -/
theorem claim_C3_witness :
    parseFrontMatter ((parseFrontMatter (("---\na: 1\n---\nbody").toList)).2) =
      ([], (parseFrontMatter (("---\na: 1\n---\nbody").toList)).2) :=
  claim_C3_amended _ (("a: 1").toList) (("body").toList) (by decide) (by decide)

/-- The fault-aborted line loop computes exactly the plain parse of the
lines before the first failing index. -/
theorem parseLinesExc_take (err : Nat → Bool) (k : Nat) :
    ∀ (lines : List (List Char)) (idx : Nat) (fm : List KV),
      idx ≤ k → err k = true → (∀ m, m < k → err m = false) →
      parseLinesExc err lines idx fm =
        parseLinesPlain (lines.take (k - idx)) fm := by
  intro lines
  induction lines with
  | nil =>
    intro idx fm _ _ _
    simp [parseLinesExc, parseLinesPlain]
  | cons line rest ih =>
    intro idx fm h1 h2 h3
    by_cases hik : idx = k
    · subst hik
      rw [parseLinesExc, if_pos h2, Nat.sub_self]
      rfl
    · have hlt : idx < k := by omega
      rw [parseLinesExc, if_neg (by rw [h3 idx hlt]; simp)]
      rw [ih (idx + 1) _ (by omega) h2 h3]
      have hsub : k - idx = (k - (idx + 1)) + 1 := by omega
      rw [hsub, List.take_succ_cons]
      rfl

/-- Claim C1, counterexample: with a header detected and an exception
raised at the second header line, `parseFrontMatter` returns the partially
built metadata and the header-stripped remainder — not an empty mapping
with the original unmodified text. -/
theorem claim_C1_counterexample :
    frontMatterMatch (("---\na: 1\nb: 2\n---\nrest").toList) =
      some ((("a: 1\nb: 2").toList, ("rest").toList)) ∧
    (fun n => n == 1) 1 = true ∧
    1 < (splitOn '\n' (("a: 1\nb: 2").toList)).length ∧
    parseFrontMatterExc (fun n => n == 1) (("---\na: 1\nb: 2\n---\nrest").toList) =
      ([((("a").toList, ("1").toList))], ("rest").toList) ∧
    parseFrontMatterExc (fun n => n == 1) (("---\na: 1\nb: 2\n---\nrest").toList) ≠
      ([], ("---\na: 1\nb: 2\n---\nrest").toList) := by
  refine ⟨by decide, rfl, by decide, by decide, by decide⟩

/-- Claim C1 as amended: if an exception is raised at header line `k` (and
at no earlier line), the catch returns the metadata accumulated from the
lines before `k` together with the header-stripped remainder as the body —
the header is stripped and partial metadata is kept. -/
theorem claim_C1_amended (err : Nat → Bool) (content yaml md : List Char) (k : Nat)
    (hm : frontMatterMatch content = some (yaml, md))
    (hk : err k = true) (hprev : ∀ m, m < k → err m = false) :
    parseFrontMatterExc err content =
      (parseLinesPlain ((splitOn '\n' yaml).take k) [], md) := by
  unfold parseFrontMatterExc
  rw [hm]
  show (parseLinesExc err (splitOn '\n' yaml) 0 [], md) = _
  rw [parseLinesExc_take err k (splitOn '\n' yaml) 0 [] (Nat.zero_le k) hk hprev,
    Nat.sub_zero]

/-- Witness for the amended claim C1 at a concrete input and fault index. -/
theorem claim_C1_witness :
    parseFrontMatterExc (fun n => n == 1) (("---\na: 1\nb: 2\n---\nrest").toList) =
      ([((("a").toList, ("1").toList))], ("rest").toList) := by
  have h := claim_C1_amended (fun n => n == 1) (("---\na: 1\nb: 2\n---\nrest").toList)
    (("a: 1\nb: 2").toList) (("rest").toList) 1 (by decide) rfl
    (by
      intro m hm
      cases m with
      | zero => rfl
      | succ p => omega)
  rw [h]
  decide

/-- Claim C6, counterexample: a value with only a leading double quote is
stored with the quote stripped, where the claim requires it kept. -/
theorem claim_C6_counterexample :
    parseFrontMatter (("---\ntitle: \"abc\n---\nx").toList) =
      ([((("title").toList, ("abc").toList))], ("x").toList) ∧
    ("abc").toList ≠ ("\"abc").toList := by
  refine ⟨by decide, by decide⟩

/-- Claim C2, counterexample: the placeholder spliced in for the first
occurrence is `__SVELTE_COMPONENT_0__`, not `__COMPONENT_0__`. -/
theorem claim_C2_counterexample :
    (extractSvelteComponents (("<Foo />").toList)).2.map (·.placeholder) =
      [("__SVELTE_COMPONENT_0__").toList] ∧
    ("__SVELTE_COMPONENT_0__").toList ≠ ("__COMPONENT_0__").toList := by
  refine ⟨by decide, by decide⟩

/-- Claim C4: the hostname used for link classification is read from the
document's front matter (`frontMatter.hostname || "localhost"`), and the
factory's configuration object is never consulted — `factoryMarkup` is
constant in its options argument. -/
theorem claim_C4_bug :
    markupHostname (parseFrontMatter (("---\nhostname: fm.example\n---\nbody").toList)).1 =
      ("fm.example").toList ∧
    markupHostname (parseFrontMatter (("---\ntitle: x\n---\nbody").toList)).1 =
      ("localhost").toList ∧
    ("fm.example").toList ≠ ("conf.example").toList ∧
    (∀ (opts : FactoryOptions) (render : List Char → List Char → List Char)
       (filename : Option (List Char)) (content : List Char),
      factoryMarkup opts render filename content =
        factoryMarkup
          { markedOptions := none, hostname := some (("conf.example").toList),
            includeDefaultStyles := none } render filename content) := by
  refine ⟨by decide, by decide, by decide, ?_⟩
  intro opts render filename content
  rfl

/-- Claim C5: the link rule classifies links and emits attributes exactly
as the specification describes, for every non-empty configured hostname. -/
theorem claim_C5 (hostname href text : List Char) (title : Option (List Char))
    (hh : hostname ≠ []) :
    rendererLink (some hostname) href title text =
      linkRuleSpec hostname href title text := by
  simp only [rendererLink, linkRuleSpec, if_neg hh]

/-- Witness for claim C5 at a concrete hostname and external link. -/
theorem claim_C5_witness :
    rendererLink (some (("example.com").toList)) (("https://other.org/x").toList)
      none (("t").toList) =
      linkRuleSpec (("example.com").toList) (("https://other.org/x").toList)
        none (("t").toList) :=
  claim_C5 _ _ _ _ (by decide)

/-- Claim C8, counterexample: at the matching filename `a.svelte.md` with
empty content, the whole-file overwrite is zero-length, so the pipeline
throws and re-raises — no `{ code, map }` record is returned. -/
theorem claim_C8_counterexample :
    markup (fun _ s => s) (some (("a.svelte.md").toList)) [] = MarkupResult.thrown ∧
    endsWithL svelteMdExt (("a.svelte.md").toList) = true ∧
    MarkupResult.thrown ≠
      MarkupResult.produced
        { code := assembledCode (fun _ s => s) [], map := { hires := true } } := by
  refine ⟨by decide, by decide, by decide⟩

/-- Claim C8 as amended: `markup` declines (returns `undefined`) exactly
when the filename is absent, empty or does not end in `.svelte.md`; for a
matching filename with non-empty content it returns the assembled code
together with a source map; for a matching filename with empty content the
pipeline's exception is re-raised instead. -/
theorem claim_C8 (render : List Char → List Char → List Char)
    (filename : Option (List Char)) (content : List Char) :
    ((filename = none ∨ filename = some [] ∨
        (∀ f, filename = some f → endsWithL svelteMdExt f = false)) →
      markup render filename content = MarkupResult.declined) ∧
    (∀ f, filename = some f → f ≠ [] →
      endsWithL svelteMdExt f = true → content ≠ [] →
      markup render filename content =
        MarkupResult.produced
          { code := assembledCode render content, map := { hires := true } }) ∧
    (∀ f, filename = some f → f ≠ [] →
      endsWithL svelteMdExt f = true → content = [] →
      markup render filename content = MarkupResult.thrown) := by
  refine ⟨?_, ?_, ?_⟩
  · rintro (h | h | h)
    · rw [h]
      rfl
    · rw [h]
      simp [markup]
    · cases filename with
      | none => rfl
      | some f =>
        by_cases hf : f = []
        · subst hf
          simp [markup]
        · simp [markup, hf, h f rfl]
  · intro f hf hne hend hc
    subst hf
    simp [markup, hne, hend, hc]
  · intro f hf hne hend hc
    subst hf
    subst hc
    simp [markup, hne, hend]

/-- Witness for the amended claim C8: a non-matching filename, a matching
filename with non-empty content, and a matching filename with empty
content. -/
theorem claim_C8_witness :
    markup (fun _ s => s) (some (("a.md").toList)) (("hi").toList) =
      MarkupResult.declined ∧
    markup (fun _ s => s) (some (("a.svelte.md").toList)) (("hi").toList) =
      MarkupResult.produced
        { code := assembledCode (fun _ s => s) (("hi").toList),
          map := { hires := true } } ∧
    markup (fun _ s => s) (some (("a.svelte.md").toList)) [] =
      MarkupResult.thrown := by
  refine ⟨?_, ?_, ?_⟩
  · exact (claim_C8 (fun _ s => s) (some (("a.md").toList)) (("hi").toList)).1
      (Or.inr (Or.inr (by intro f hf; injection hf with hf; subst hf; decide)))
  · exact (claim_C8 (fun _ s => s) (some (("a.svelte.md").toList)) (("hi").toList)).2.1
      _ rfl (by decide) (by decide) (by decide)
  · exact (claim_C8 (fun _ s => s) (some (("a.svelte.md").toList)) []).2.2
      _ rfl (by decide) (by decide) rfl

/-- Claim C10: a paired tag with empty children (`<Box></Box>`) is
extracted with children stored as the empty string, and every occurrence
whose stored children text is empty is restored in the self-closing form
`<Name attrs />`. -/
theorem claim_C10 :
    (extractSvelteComponents (("x <Box></Box> y").toList)).2 =
      [{ tagName := ("Box").toList, attributes := [], children := [],
         fullMatch := ("<Box></Box>").toList,
         placeholder := ("__SVELTE_COMPONENT_0__").toList }] ∧
    (∀ c : SComponent, c.children = [] →
      reconstructComponent c = selfClosingForm c) := by
  constructor
  · decide
  · intro c hc
    unfold reconstructComponent selfClosingForm
    rw [if_neg (by simp [hc])]
    rfl

/-- Witness for claim C10 at the concrete empty-children occurrence. -/
theorem claim_C10_witness :
    reconstructComponent
      { tagName := ("Box").toList, attributes := [], children := [],
        fullMatch := ("<Box></Box>").toList,
        placeholder := ("__SVELTE_COMPONENT_0__").toList } =
      selfClosingForm
        { tagName := ("Box").toList, attributes := [], children := [],
          fullMatch := ("<Box></Box>").toList,
          placeholder := ("__SVELTE_COMPONENT_0__").toList } :=
  claim_C10.2 _ rfl

/-- The fuel of `natToStrAux` is irrelevant as long as it dominates the
number. -/
theorem natToStrAux_stable : ∀ (n f1 f2 : Nat), n ≤ f1 → n ≤ f2 →
    natToStrAux f1 n = natToStrAux f2 n := by
  intro n
  induction n using Nat.strong_induction_on with
  | _ n ih =>
    intro f1 f2 h1 h2
    cases n with
    | zero => cases f1 <;> cases f2 <;> rfl
    | succ m =>
      cases f1 with
      | zero => omega
      | succ g1 =>
        cases f2 with
        | zero => omega
        | succ g2 =>
          simp only [natToStrAux]
          have hd : (m + 1) / 10 < m + 1 :=
            Nat.div_lt_self (Nat.succ_pos m) (by norm_num)
          rw [ih ((m + 1) / 10) hd g1 g2 (by omega) (by omega)]

/-- `digitCh` of a digit below ten has the expected code point. -/
theorem digitCh_toNat (d : Nat) (hd : d < 10) : (digitCh d).toNat = 48 + d := by
  interval_cases d <;> decide

/-- Every character produced by `natToStrAux` is a decimal digit. -/
theorem natToStrAux_digits : ∀ (f n : Nat), ∀ c ∈ natToStrAux f n,
    48 ≤ c.toNat ∧ c.toNat ≤ 57 := by
  intro f
  induction f with
  | zero =>
    intro n c hc
    simp [natToStrAux] at hc
  | succ g ih =>
    intro n c hc
    cases n with
    | zero => simp [natToStrAux] at hc
    | succ m =>
      simp only [natToStrAux, List.mem_append, List.mem_singleton] at hc
      rcases hc with hc | hc
      · exact ih _ c hc
      · subst hc
        have h10 : (m + 1) % 10 < 10 := Nat.mod_lt _ (by norm_num)
        rw [digitCh_toNat _ h10]
        omega

/-- `natToStrAux` of a positive number is non-empty. -/
theorem natToStrAux_ne_nil (f m : Nat) : natToStrAux (f + 1) (m + 1) ≠ [] := by
  simp [natToStrAux]

/-- `natToStrAux` of zero is empty at any fuel. -/
theorem natToStrAux_zero (f : Nat) : natToStrAux f 0 = [] := by
  cases f <;> rfl

/-- With dominating fuel, only zero maps to the empty digit list. -/
theorem natToStrAux_eq_nil (f n : Nat) (hn : n ≤ f) (h : natToStrAux f n = []) :
    n = 0 := by
  cases n with
  | zero => rfl
  | succ m =>
    cases f with
    | zero => omega
    | succ g => exact absurd h (natToStrAux_ne_nil g m)

/-- Every character of `natToStr` is a decimal digit. -/
theorem natToStr_digits (n : Nat) (c : Char) (hc : c ∈ natToStr n) :
    48 ≤ c.toNat ∧ c.toNat ≤ 57 := by
  unfold natToStr at hc
  split at hc
  · simp at hc
    subst hc
    decide
  · exact natToStrAux_digits n n c hc

/-- Two char lists ending in a singleton agree iff fronts and last
characters agree. -/
theorem append_singleton_inj {a b : List Char} {x y : Char}
    (h : a ++ [x] = b ++ [y]) : a = b ∧ x = y := by
  have h2 := congrArg List.reverse h
  simp only [List.reverse_append, List.reverse_cons, List.reverse_nil,
    List.nil_append, List.singleton_append] at h2
  injection h2 with h3 h4
  exact ⟨List.reverse_inj.mp h4, h3⟩

/-- `natToStrAux` at canonical fuel is injective. -/
theorem natToStrAux_canon_inj : ∀ n m : Nat,
    natToStrAux n n = natToStrAux m m → n = m := by
  intro n
  induction n using Nat.strong_induction_on with
  | _ n ih =>
    intro m h
    cases n with
    | zero =>
      cases m with
      | zero => rfl
      | succ m' =>
        rw [natToStrAux_zero] at h
        exact absurd h.symm (natToStrAux_ne_nil m' m')
    | succ n' =>
      cases m with
      | zero =>
        rw [natToStrAux_zero] at h
        exact absurd h (natToStrAux_ne_nil n' n')
      | succ m' =>
        simp only [natToStrAux] at h
        obtain ⟨hpre, hdig⟩ := append_singleton_inj h
        have hr1 : (n' + 1) % 10 < 10 := Nat.mod_lt _ (by norm_num)
        have hr2 : (m' + 1) % 10 < 10 := Nat.mod_lt _ (by norm_num)
        have hdnat := congrArg Char.toNat hdig
        rw [digitCh_toNat _ hr1, digitCh_toNat _ hr2] at hdnat
        have hq1 : (n' + 1) / 10 < n' + 1 :=
          Nat.div_lt_self (Nat.succ_pos _) (by norm_num)
        have hq2 : (m' + 1) / 10 < m' + 1 :=
          Nat.div_lt_self (Nat.succ_pos _) (by norm_num)
        have hpre' : natToStrAux ((n' + 1) / 10) ((n' + 1) / 10) =
            natToStrAux ((m' + 1) / 10) ((m' + 1) / 10) := by
          rw [natToStrAux_stable ((n' + 1) / 10) ((n' + 1) / 10) n' le_rfl (by omega),
            natToStrAux_stable ((m' + 1) / 10) ((m' + 1) / 10) m' le_rfl (by omega)]
          exact hpre
        by_cases hz1 : (n' + 1) / 10 = 0
        · by_cases hz2 : (m' + 1) / 10 = 0
          · omega
          · exfalso
            rw [hz1, natToStrAux_zero] at hpre'
            have := natToStrAux_eq_nil ((m' + 1) / 10) ((m' + 1) / 10) le_rfl hpre'.symm
            exact hz2 this
        · by_cases hz2 : (m' + 1) / 10 = 0
          · exfalso
            rw [hz2, natToStrAux_zero] at hpre'
            have := natToStrAux_eq_nil ((n' + 1) / 10) ((n' + 1) / 10) le_rfl hpre'
            exact hz1 this
          · have := ih ((n' + 1) / 10) hq1 ((m' + 1) / 10) hpre'
            omega

/-- The decimal rendering of naturals is injective. -/
theorem natToStr_inj {n m : Nat} (h : natToStr n = natToStr m) : n = m := by
  unfold natToStr at h
  by_cases hn : n = 0
  · by_cases hm : m = 0
    · omega
    · exfalso
      rw [if_pos hn, if_neg hm] at h
      cases m with
      | zero => exact hm rfl
      | succ m' =>
        simp only [natToStrAux] at h
        have h2 : ([] : List Char) ++ [('0')] =
            natToStrAux m' ((m' + 1) / 10) ++ [digitCh ((m' + 1) % 10)] := by
          simpa using h
        obtain ⟨hfront, hdig⟩ := append_singleton_inj h2
        have hr : (m' + 1) % 10 < 10 := Nat.mod_lt _ (by norm_num)
        have hdnat := congrArg Char.toNat hdig
        rw [digitCh_toNat _ hr] at hdnat
        have hdiv : (m' + 1) / 10 = 0 := by
          have hle : (m' + 1) / 10 ≤ m' := by
            have := Nat.div_lt_self (Nat.succ_pos m') (by norm_num : (1:Nat) < 10)
            omega
          exact natToStrAux_eq_nil m' _ hle hfront.symm
        have : ('0').toNat = 48 := by decide
        omega
  · by_cases hm : m = 0
    · exfalso
      rw [if_neg hn, if_pos hm] at h
      cases n with
      | zero => exact hn rfl
      | succ n' =>
        simp only [natToStrAux] at h
        have h2 : natToStrAux n' ((n' + 1) / 10) ++ [digitCh ((n' + 1) % 10)] =
            ([] : List Char) ++ [('0')] := by
          simpa using h
        obtain ⟨hfront, hdig⟩ := append_singleton_inj h2
        have hr : (n' + 1) % 10 < 10 := Nat.mod_lt _ (by norm_num)
        have hdnat := congrArg Char.toNat hdig
        rw [digitCh_toNat _ hr] at hdnat
        have hdiv : (n' + 1) / 10 = 0 := by
          have hle : (n' + 1) / 10 ≤ n' := by
            have := Nat.div_lt_self (Nat.succ_pos n') (by norm_num : (1:Nat) < 10)
            omega
          exact natToStrAux_eq_nil n' _ hle hfront
        have : ('0').toNat = 48 := by decide
        omega
    · rw [if_neg hn, if_neg hm] at h
      exact natToStrAux_canon_inj n m h

/-- No character of `natToStr` is the letter `S`. -/
theorem natToStr_count_S (k : Nat) : List.count ('S') (natToStr k) = 0 := by
  rw [List.count_eq_zero]
  intro hmem
  have h := natToStr_digits k ('S') hmem
  revert h
  decide

/-- Each placeholder contains the letter `S` exactly once. -/
theorem placeholder_count_S (k : Nat) : List.count ('S') (placeholderFor k) = 1 := by
  unfold placeholderFor
  rw [List.count_append, List.count_append, natToStr_count_S]
  decide

/-- Placeholders of distinct indices are distinct. -/
theorem placeholderFor_inj {n m : Nat} (h : placeholderFor n = placeholderFor m) :
    n = m := by
  unfold placeholderFor at h
  rw [List.append_assoc, List.append_assoc] at h
  have h1 := List.append_cancel_left h
  exact natToStr_inj (List.append_cancel_right h1)

/-- No placeholder occurs as a substring of a placeholder with a different
index: the literal prefix pins any occurrence to position zero, and the
digit block then forces the indices to agree. -/
theorem placeholder_not_infix {i j : Nat} (hne : i ≠ j) :
    ¬ placeholderFor i <:+: placeholderFor j := by
  rintro ⟨s, t, h⟩
  have hs : s = [] := by
    rcases s with _ | ⟨a, _ | ⟨b, _ | ⟨c, s3⟩⟩⟩
    · rfl
    · exfalso
      have h' : (some ('_') : Option Char) = some 'S' :=
        congrArg (fun l : List Char => l.get? 2) h
      exact absurd (Option.some.inj h') (by decide)
    · exfalso
      have h' : (some ('_') : Option Char) = some 'S' :=
        congrArg (fun l : List Char => l.get? 2) h
      exact absurd (Option.some.inj h') (by decide)
    · exfalso
      have h' : some c = some 'S' :=
        congrArg (fun l : List Char => l.get? 2) h
      have h3 : c = 'S' := Option.some.inj h'
      subst h3
      have hcnt := congrArg (List.count ('S')) h
      rw [List.count_append, List.count_append, placeholder_count_S,
        placeholder_count_S] at hcnt
      have hpos : 0 < List.count ('S') (a :: b :: 'S' :: s3) := by
        rw [List.count_pos_iff]
        simp
      omega
  subst hs
  simp only [List.nil_append] at h
  have h2 : natToStr i ++ (['_', '_'] ++ t) = natToStr j ++ ['_', '_'] := by
    have h' := h
    simp only [placeholderFor, List.append_assoc] at h'
    exact List.append_cancel_left h'
  rcases t with _ | ⟨t0, t'⟩
  · simp only [List.append_nil] at h2
    exact hne (natToStr_inj (List.append_cancel_right h2))
  · have hlen := congrArg List.length h2
    simp only [List.length_append, List.length_cons, List.length_nil] at hlen
    have hXY : (natToStr i).length < (natToStr j).length := by omega
    have hd := congrArg (List.drop (natToStr i).length) h2
    rw [List.drop_left] at hd
    rw [List.drop_append_of_le_length (Nat.le_of_lt hXY)] at hd
    rw [List.drop_eq_getElem_cons hXY] at hd
    simp only [List.cons_append, List.nil_append] at hd
    injection hd with h5 _
    have hmem : (natToStr j)[(natToStr i).length] ∈ natToStr j :=
      List.getElem_mem hXY
    have hdig := natToStr_digits j _ hmem
    rw [← h5] at hdig
    revert hdig
    decide

/-- Loop invariant of `extractGo`: if every component accumulated so far
carries the placeholder of its position, the same holds for the final
component list. -/
theorem extractGo_placeholder :
    ∀ (fuel : Nat) (content modified : List Char) (lastIndex : Nat) (offset : Int)
      (comps : List SComponent),
      (∀ k (hk : k < comps.length), comps[k].placeholder = placeholderFor k) →
      ∀ k (hk : k < (extractGo fuel content modified lastIndex offset comps).1.length),
        (extractGo fuel content modified lastIndex offset comps).1[k].placeholder =
          placeholderFor k := by
  intro fuel
  induction fuel with
  | zero =>
    intro content modified lastIndex offset comps hinv k hk
    exact hinv k hk
  | succ g ih =>
    intro content modified lastIndex offset comps hinv k hk
    cases hscan : scanAux (content.drop lastIndex) lastIndex with
    | none =>
      simp only [extractGo, hscan] at hk ⊢
      exact hinv k hk
    | some pm =>
      simp only [extractGo, hscan] at hk ⊢
      refine ih content _ _ _ _ ?_ k hk
      intro k' hk'
      rw [List.length_append, List.length_singleton] at hk'
      rcases Nat.lt_or_ge k' comps.length with hlt | hge
      · rw [List.getElem_append_left hlt]
        exact hinv k' hlt
      · have hk'' : k' = comps.length := by omega
        subst hk''
        rw [List.getElem_concat_length comps _ comps.length rfl]

/-- Every occurrence produced by `extractSvelteComponents` carries the
placeholder of its discovery index. -/
theorem extract_placeholder (content : List Char) (k : Nat)
    (hk : k < (extractSvelteComponents content).2.length) :
    (extractSvelteComponents content).2[k].placeholder = placeholderFor k := by
  unfold extractSvelteComponents at hk ⊢
  exact extractGo_placeholder (content.length + 1) content content 0 0 []
    (by intro k' hk'; simp at hk') k hk

/-- Claim C2 as amended: the placeholder for the occurrence with discovery
index `i` is exactly `__SVELTE_COMPONENT_` + `i` + `__`. -/
theorem claim_C2_amended (content : List Char) (i : Nat)
    (hi : i < (extractSvelteComponents content).2.length) :
    (extractSvelteComponents content).2[i].placeholder =
      ("__SVELTE_COMPONENT_").toList ++ natToStr i ++ ("__").toList := by
  rw [extract_placeholder content i hi]
  have hp : placeholderPre = ("__SVELTE_COMPONENT_").toList := by decide
  have hs : ['_', '_'] = ("__").toList := by decide
  unfold placeholderFor
  rw [hp, hs]

/-- Witness for the amended claim C2 at a concrete one-component input. -/
theorem claim_C2_witness :
    ((extractSvelteComponents (("<Foo />").toList)).2.get ⟨0, by decide⟩).placeholder =
      ("__SVELTE_COMPONENT_").toList ++ natToStr 0 ++ ("__").toList :=
  claim_C2_amended (("<Foo />").toList) 0 (by decide)

/-- Claim C9: placeholders of distinct occurrences are distinct, and no
placeholder occurs as a substring of another, so replacing one can never
consume part of another. -/
theorem claim_C9 (content : List Char) (i j : Nat)
    (hi : i < (extractSvelteComponents content).2.length)
    (hj : j < (extractSvelteComponents content).2.length) (hij : i ≠ j) :
    (extractSvelteComponents content).2[i].placeholder ≠
      (extractSvelteComponents content).2[j].placeholder ∧
    ¬ ((extractSvelteComponents content).2[i].placeholder <:+:
        (extractSvelteComponents content).2[j].placeholder) := by
  rw [extract_placeholder content i hi, extract_placeholder content j hj]
  exact ⟨fun h => hij (placeholderFor_inj h), placeholder_not_infix hij⟩

/-- Witness for claim C9 at a concrete two-component input. -/
theorem claim_C9_witness :
    ((extractSvelteComponents (("<A/><B/>").toList)).2.get ⟨0, by decide⟩).placeholder ≠
      ((extractSvelteComponents (("<A/><B/>").toList)).2.get ⟨1, by decide⟩).placeholder ∧
    ¬ (((extractSvelteComponents (("<A/><B/>").toList)).2.get ⟨0, by decide⟩).placeholder <:+:
        ((extractSvelteComponents (("<A/><B/>").toList)).2.get ⟨1, by decide⟩).placeholder) :=
  claim_C9 (("<A/><B/>").toList) 0 1 (by decide) (by decide) (by decide)

/-- `splitOn` never returns the empty list. -/
theorem splitOn_ne_nil (c : Char) (s : List Char) : splitOn c s ≠ [] := by
  cases s with
  | nil => simp [splitOn]
  | cons x xs =>
    simp only [splitOn]
    split
    · simp
    · split <;> simp

/-- Joining a split with the same separator restores the string. -/
theorem joinWithL_splitOn (c : Char) : ∀ s : List Char,
    joinWithL [c] (splitOn c s) = s := by
  intro s
  induction s with
  | nil => rfl
  | cons x xs ih =>
    simp only [splitOn]
    by_cases hx : x = c
    · rw [if_pos hx]
      cases hsp : splitOn c xs with
      | nil => exact absurd hsp (splitOn_ne_nil c xs)
      | cons h t =>
        rw [hsp] at ih
        simp only [joinWithL]
        rw [ih, hx]
        rfl
    · rw [if_neg hx]
      cases hsp : splitOn c xs with
      | nil => exact absurd hsp (splitOn_ne_nil c xs)
      | cons h t =>
        rw [hsp] at ih
        dsimp only
        cases t with
        | nil =>
          simp only [joinWithL] at ih ⊢
          rw [ih]
        | cons t0 t' =>
          simp only [joinWithL] at ih ⊢
          rw [List.cons_append, List.cons_append, ih]

/-- The first piece of a split is the run before the first separator. -/
theorem splitOn_head (c : Char) (s : List Char) :
    (splitOn c s).head? = some (s.takeWhile (fun x => x != c)) := by
  induction s with
  | nil => rfl
  | cons x xs ih =>
    simp only [splitOn]
    by_cases hx : x = c
    · rw [if_pos hx]
      simp [List.takeWhile_cons, hx]
    · rw [if_neg hx]
      cases hsp : splitOn c xs with
      | nil => exact absurd hsp (splitOn_ne_nil c xs)
      | cons h t =>
        rw [hsp] at ih
        dsimp only
        simp only [List.head?_cons, Option.some.injEq] at ih
        simp [List.takeWhile_cons, bne_iff_ne, hx, ih]

/-- Joining the later pieces of a split yields the text after the first
separator. -/
theorem splitOn_tail_join (c : Char) (s : List Char) :
    joinWithL [c] (splitOn c s).tail =
      ((s.dropWhile (fun x => x != c)).tail) := by
  induction s with
  | nil => rfl
  | cons x xs ih =>
    simp only [splitOn]
    by_cases hx : x = c
    · rw [if_pos hx]
      simp [List.dropWhile_cons, hx, joinWithL_splitOn]
    · rw [if_neg hx]
      cases hsp : splitOn c xs with
      | nil => exact absurd hsp (splitOn_ne_nil c xs)
      | cons h t =>
        rw [hsp] at ih
        dsimp only
        simp only [List.tail_cons] at ih ⊢
        simp [List.dropWhile_cons, bne_iff_ne, hx, ih]

/-- A split has a single piece exactly when the separator is absent. -/
theorem splitOn_tail_eq_nil (c : Char) (s : List Char) :
    (splitOn c s).tail = [] ↔ c ∉ s := by
  induction s with
  | nil => simp [splitOn]
  | cons x xs ih =>
    simp only [splitOn]
    by_cases hx : x = c
    · rw [if_pos hx]
      simp only [List.tail_cons]
      constructor
      · intro h
        exact absurd h (splitOn_ne_nil c xs)
      · intro h
        exact absurd (by simp [hx] : c ∈ x :: xs) h
    · rw [if_neg hx]
      cases hsp : splitOn c xs with
      | nil => exact absurd hsp (splitOn_ne_nil c xs)
      | cons h t =>
        rw [hsp] at ih
        dsimp only
        simp only [List.tail_cons] at ih ⊢
        rw [ih, List.mem_cons]
        constructor
        · intro hn hmem
          rcases hmem with hmem | hmem
          · exact hx hmem.symm
          · exact hn hmem
        · intro hn hmem
          exact hn (Or.inr hmem)

/-- `dropLeadQuoteJs` in the specification's vocabulary. -/
theorem dropLeadQuoteJs_eq (s : List Char) :
    dropLeadQuoteJs s =
      if s.head? = some '"' ∨ s.head? = some (Char.ofNat 39) then s.tail
      else s := by
  cases s with
  | nil => simp [dropLeadQuoteJs]
  | cons a s' =>
    simp only [dropLeadQuoteJs, List.head?_cons, List.tail_cons,
      Option.some.injEq]
    by_cases ha : a = '"' ∨ a = Char.ofNat 39
    · rw [if_pos (by simpa using ha), if_pos ha]
    · rw [if_neg (by simpa using ha), if_neg ha]

/-- `dropTrailQuoteJs` in the specification's vocabulary. -/
theorem dropTrailQuoteJs_eq (v : List Char) :
    dropTrailQuoteJs v =
      if v.getLast? = some '"' ∨ v.getLast? = some (Char.ofNat 39) then
        v.dropLast
      else v := by
  unfold dropTrailQuoteJs
  cases hrev : v.reverse with
  | nil =>
    have hv : v = [] := by
      have h2 := congrArg List.reverse hrev
      simpa using h2
    subst hv
    simp
  | cons c r =>
    have hv : v = r.reverse ++ [c] := by
      have h2 := congrArg List.reverse hrev
      simpa using h2
    have hlast : v.getLast? = some c := by
      rw [hv]
      exact List.getLast?_concat _
    have hdrop : v.dropLast = r.reverse := by
      rw [hv]
      exact List.dropLast_concat
    rw [hlast, hdrop]
    simp only [Option.some.injEq]
    by_cases hc : c = '"' ∨ c = Char.ofNat 39
    · rw [if_pos (by simpa using hc), if_pos hc]
    · rw [if_neg (by simpa using hc), if_neg hc]

/-- The source's quote stripping equals the claim-side `specStrip`. -/
theorem stripQuotesJs_eq_specStrip (s : List Char) :
    stripQuotesJs s = specStrip s := by
  unfold stripQuotesJs specStrip
  rw [dropLeadQuoteJs_eq, dropTrailQuoteJs_eq]

/-- Claim C6 as amended: for every header line that is non-blank,
non-comment, contains a colon and has a truthy key part, the stored value
is the trimmed text after the first colon with at most one leading and at
most one trailing quote character removed, the two removals being
independent (one-sided and mismatched quotes are stripped as well). -/
theorem claim_C6_amended (line : List Char)
    (h1 : jsTrim line ≠ [])
    (h2 : startsWithL (['#']) (jsTrim line) = false)
    (h3 : ':' ∈ jsTrim line)
    (h4 : (jsTrim line).takeWhile (fun x => x != ':') ≠ []) :
    parseHeaderLine line =
      some (jsTrim ((jsTrim line).takeWhile (fun x => x != ':')),
            specValueC6 (jsTrim line)) := by
  simp only [parseHeaderLine]
  rw [if_neg h1, if_neg (by simp [h2])]
  cases hsp : splitOn ':' (jsTrim line) with
  | nil => exact absurd hsp (splitOn_ne_nil ':' (jsTrim line))
  | cons key vps =>
    have hkey : key = (jsTrim line).takeWhile (fun x => x != ':') := by
      have hh := splitOn_head ':' (jsTrim line)
      rw [hsp] at hh
      simpa using hh
    have hvps : vps ≠ [] := by
      intro hv
      have ht : (splitOn ':' (jsTrim line)).tail = [] := by
        rw [hsp, hv]
        rfl
      exact (splitOn_tail_eq_nil ':' (jsTrim line)).mp ht h3
    have hjoin : joinWithL ([':']) vps =
        ((jsTrim line).dropWhile (fun x => x != ':')).tail := by
      have hh := splitOn_tail_join ':' (jsTrim line)
      rw [hsp] at hh
      simpa using hh
    dsimp only
    rw [if_pos ⟨by rw [hkey]; exact h4, List.length_pos.mpr hvps⟩]
    rw [hkey, hjoin, stripQuotesJs_eq_specStrip]
    rfl

/-- Witness for the amended claim C6 at a concrete mismatched-quote line. -/
theorem claim_C6_witness :
    parseHeaderLine (("title: \"abc").toList) =
      some (jsTrim ((jsTrim (("title: \"abc").toList)).takeWhile (fun x => x != ':')),
            specValueC6 (jsTrim (("title: \"abc").toList))) :=
  claim_C6_amended (("title: \"abc").toList) (by decide) (by decide) (by decide)
    (by decide)

end SvelteMd
